import Mathlib

/-!
Verification of the KeepActive target-resolution and keep-alive supervision
engine (`src/main.rs`).

Strings are modelled as lists of characters.  The Windows process/window
environment is modelled as an explicit `SysState` (a snapshot of the process
list and the window list, in enumeration order).  The process-spawning
controller is modelled as a state-passing function over a `World` that
records which worker processes the operating system is currently running,
together with environment oracles describing which spawn attempts succeed,
what `Child.kill` returns for each process, and which processes have
terminated on their own (the `try_wait` outcome).
-/

namespace KeepActive

/-- Strings are modelled as lists of characters. -/
abbrev Str := List Char

/-- Code points of the Unicode White_Space class, the set recognised by
Rust `char::is_whitespace` (invoked through `str::trim`). -/
def whitespaceCodes : List Nat :=
  [0x09, 0x0A, 0x0B, 0x0C, 0x0D, 0x20, 0x85, 0xA0, 0x1680,
   0x2000, 0x2001, 0x2002, 0x2003, 0x2004, 0x2005, 0x2006, 0x2007,
   0x2008, 0x2009, 0x200A, 0x2028, 0x2029, 0x202F, 0x205F, 0x3000]

/-- Rust `char::is_whitespace`. -/
def isWhitespaceChar (c : Char) : Bool := whitespaceCodes.contains c.toNat

/-- Rust `str::trim_start`: drop leading whitespace. -/
def trim_start (s : Str) : Str := s.dropWhile isWhitespaceChar

/-- Rust `str::trim_end`: drop trailing whitespace. -/
def trim_end (s : Str) : Str := (s.reverse.dropWhile isWhitespaceChar).reverse

/-- Rust `str::trim`: drop leading and trailing whitespace. -/
def trim (s : Str) : Str := trim_end (trim_start s)

/-- Rust `char::to_ascii_lowercase`: map the ASCII uppercase letters to
their lowercase counterparts and leave every other character unchanged. -/
def to_ascii_lowercase_char (c : Char) : Char :=
  if 'A' ≤ c ∧ c ≤ 'Z' then Char.ofNat (c.toNat + 32) else c

/-- Rust `str::to_ascii_lowercase`, the dedup key used by `normalize_list`. -/
def lowerKey (s : Str) : Str := s.map to_ascii_lowercase_char

/-- Rust `str::eq_ignore_ascii_case`: equality after an ASCII case fold. -/
def eq_ignore_ascii_case (a b : Str) : Bool := lowerKey a == lowerKey b

/-- The loop body of `normalize_list` (`main.rs` lines 802-817): `seen` is the
set of lowercase keys inserted into the `HashSet` so far, modelled as a list. -/
def normalizeGo (seen : List Str) : List Str → List Str
  | [] => []
  | value :: rest =>
    if trim value = [] then
      normalizeGo seen rest
    else if seen.contains (lowerKey (trim value)) then
      normalizeGo seen rest
    else
      trim value :: normalizeGo (lowerKey (trim value) :: seen) rest

/-- `normalize_list` (`main.rs` lines 802-817): trim each entry, drop entries
that become empty, and keep only the first occurrence of each ASCII
case-insensitive key, preserving order. -/
def normalize_list (values : List Str) : List Str := normalizeGo [] values

/-- `DEFAULT_WINDOW_TITLE` (`main.rs` line 45), the string literal used there
spelled out as a character list. -/
def DEFAULT_WINDOW_TITLE : Str :=
  ['C', 'o', 'u', 'n', 't', 'e', 'r', 'S', 'i', 'd', 'e']

/-- `REFRESH_INTERVAL_MS` (`main.rs` line 46). -/
def REFRESH_INTERVAL_MS : Nat := 100

/-- `AppConfig` (`main.rs` lines 70-74). -/
structure AppConfig where
  window_titles : List Str
  process_names : List Str
deriving DecidableEq

/-- `ResolvedConfig` (`main.rs` lines 94-98): the TargetSpec of the spec. -/
structure ResolvedConfig where
  window_titles : List Str
  process_names : List Str
deriving DecidableEq

/-- `ResolvedConfig::from_lists` (`main.rs` lines 101-108): normalize both
lists and fall back to the built-in default title when no title survives. -/
def ResolvedConfig.from_lists (window_titles process_names : List Str) :
    ResolvedConfig :=
  let wt := normalize_list window_titles
  { window_titles := if wt = [] then [DEFAULT_WINDOW_TITLE] else wt,
    process_names := normalize_list process_names }

/-- `AppConfig::from_args` (`main.rs` lines 77-87), taking the raw
`--window` and `--exe` argument lists. -/
def AppConfig.from_args (window exe : List Str) : AppConfig :=
  let wt := normalize_list window
  { window_titles := if wt = [] then [DEFAULT_WINDOW_TITLE] else wt,
    process_names := normalize_list exe }

/-- `AppConfig::resolved` (`main.rs` lines 89-91). -/
def AppConfig.resolved (c : AppConfig) : ResolvedConfig :=
  ResolvedConfig.from_lists c.window_titles c.process_names

/-- One `PROCESSENTRY32W` record of the toolhelp snapshot: process id and
executable image file name. -/
structure ProcEntry where
  pid : Nat
  szExeFile : Str
deriving DecidableEq

/-- One top-level window as seen by `EnumWindows`: handle, owning process id,
visibility, and title text. -/
structure WindowInfo where
  hwnd : Nat
  pid : Nat
  visible : Bool
  title : Str
deriving DecidableEq

/-- A snapshot of the operating-system state one poll cycle observes:
whether `CreateToolhelp32Snapshot` succeeds, the process list in snapshot
enumeration order, and the window list in `EnumWindows` order. -/
structure SysState where
  snapshotOk : Bool
  procs : List ProcEntry
  windows : List WindowInfo
deriving DecidableEq

/-- `find_process_id` (`main.rs` lines 619-645): walk the snapshot and return
the id of the first process whose image name matches ASCII
case-insensitively.  Both failure cases of the Rust `Result` (snapshot
failure, no match) are collapsed to `none`, which is all the caller
(`find_target_window`) distinguishes. -/
def find_process_id (sys : SysState) (process_name : Str) : Option Nat :=
  if sys.snapshotOk then
    (sys.procs.find? fun e => eq_ignore_ascii_case e.szExeFile process_name).map
      ProcEntry.pid
  else none

/-- The condition checked by `enum_proc` inside `find_window_by_pid`
(`main.rs` lines 653-666): the window belongs to the target process id, is
visible, and has non-empty title text (`GetWindowTextLengthW > 0`). -/
def windowQualifiesForPid (pid : Nat) (w : WindowInfo) : Bool :=
  w.pid == pid && w.visible && decide (0 < w.title.length)

/-- `find_window_by_pid` (`main.rs` lines 647-678): the first window in
enumeration order that qualifies for the given process id. -/
def find_window_by_pid (sys : SysState) (pid : Nat) : Option Nat :=
  (sys.windows.find? (windowQualifiesForPid pid)).map WindowInfo.hwnd

/-- `find_window_by_title` (`main.rs` lines 680-686): `FindWindowW` by exact
title, modelled as the first window whose title matches exactly. -/
def find_window_by_title (sys : SysState) (title : Str) : Option Nat :=
  (sys.windows.find? fun w => w.title == title).map WindowInfo.hwnd

/-- The first loop of `find_target_window` (`main.rs` lines 604-610): for
each executable name in order, resolve it to a process id and then to a
qualifying window of that process. -/
def findViaProcessNames (sys : SysState) : List Str → Option Nat
  | [] => none
  | name :: rest =>
    match find_process_id sys name with
    | some pid =>
      match find_window_by_pid sys pid with
      | some hwnd => some hwnd
      | none => findViaProcessNames sys rest
    | none => findViaProcessNames sys rest

/-- The second loop of `find_target_window` (`main.rs` lines 611-615): for
each window title in order, a direct lookup by exact title. -/
def findViaTitles (sys : SysState) : List Str → Option Nat
  | [] => none
  | title :: rest =>
    match find_window_by_title sys title with
    | some hwnd => some hwnd
    | none => findViaTitles sys rest

/-- `find_target_window` (`main.rs` lines 603-617): executable names first,
window titles as fallback, `none` when nothing matches. -/
def find_target_window (sys : SysState) (config : ResolvedConfig) : Option Nat :=
  match findViaProcessNames sys config.process_names with
  | some hwnd => some hwnd
  | none => findViaTitles sys config.window_titles

/-- `worker_loop` (`main.rs` lines 587-601) over a finite observation trace.
Each trace element is the value the loop reads from the `active` flag at the
top of the iteration paired with the operating-system state during that
iteration.  Each executed iteration emits the activation signal it sends (the
freshly resolved window handle, or `none` for a resolution miss) together
with the number of milliseconds slept afterwards. -/
def worker_loop (config : ResolvedConfig) :
    List (Bool × SysState) → List (Option Nat × Nat)
  | [] => []
  | (active, sys) :: rest =>
    if active then
      (find_target_window sys config, REFRESH_INTERVAL_MS) ::
        worker_loop config rest
    else []

/-- The activation signals sent during one poll interval by a set of running
workers: each worker runs one iteration body (`main.rs` lines 589-598) and
signals the window its own `find_target_window` resolves, if any. -/
def intervalSignals (sys : SysState) (configs : List ResolvedConfig) : List Nat :=
  configs.filterMap fun cfg => find_target_window sys cfg

/-- Outcome of `Child::kill` for one process: success, the tolerated
`InvalidInput` error, or any other error. -/
inductive KillOutcome
  | ok
  | errInvalidInput
  | errOther
deriving DecidableEq

/-- Error cases of `KeepAliveController::start`. -/
inductive StartError
  | noTargets
  | currentExeFailed
  | spawnFailed
deriving DecidableEq

/-- Error case of `KeepAliveController::stop`. -/
inductive StopError
  | killFailed
deriving DecidableEq

/-- One `Child` handle owned by the controller: the spawned worker process id
and the worker configuration it was launched with. -/
structure Child where
  id : Nat
  config : ResolvedConfig
deriving DecidableEq

/-- The operating-system world threaded through the controller: `nextId`
numbers spawn attempts (and names the process a successful attempt creates),
`alive` is the set of worker processes currently running, and the three
oracles describe the environment: whether `env::current_exe` succeeds,
whether each spawn attempt succeeds, what `Child::kill` returns per process,
and whether `Child::try_wait` reports the process as already terminated. -/
structure World where
  nextId : Nat
  alive : List Nat
  exeOk : Bool
  spawnOk : Nat → Bool
  killRes : Nat → KillOutcome
  hasExited : Nat → Bool

/-- `KeepAliveController` (`main.rs` lines 111-113). -/
structure KeepAliveController where
  children : List Child
deriving DecidableEq

/-- `KeepAliveController::prune_finished` (`main.rs` lines 193-204): drop the
children whose `try_wait` reports termination (`Ok(Some(_))`); keep the ones
still running (`Ok(None)`) or whose `try_wait` errors. -/
def prune_finished (c : KeepAliveController) (w : World) : KeepAliveController :=
  { children := c.children.filter fun ch => !(w.hasExited ch.id) }

/-- `KeepAliveController::is_running` (`main.rs` lines 188-191): prune, then
report whether any child remains. -/
def is_running (c : KeepAliveController) (w : World) : Bool :=
  !((prune_finished c w).children.isEmpty)

/-- The configuration a per-title worker process runs with: it is launched
with `--worker --window title` (`main.rs` lines 142-153) and the worker
re-entry path builds `AppConfig::from_args(...).resolved()`
(`main.rs` lines 220-222). -/
def workerConfigForTitle (title : Str) : ResolvedConfig :=
  (AppConfig.from_args [title] []).resolved

/-- The configuration a per-executable worker process runs with: it is
launched with `--worker`, every `--window title`, and `--exe name`
(`main.rs` lines 155-170). -/
def workerConfigForExe (window_titles : List Str) (name : Str) : ResolvedConfig :=
  (AppConfig.from_args window_titles [name]).resolved

/-- One `Command::spawn` attempt: on success the process `w.nextId` starts
running and a `Child` handle is returned; on failure no process starts.  The
attempt counter advances either way. -/
def spawn_worker (w : World) (cfg : ResolvedConfig) : World × Option Child :=
  if w.spawnOk w.nextId then
    ({ w with nextId := w.nextId + 1, alive := w.alive ++ [w.nextId] },
      some { id := w.nextId, config := cfg })
  else
    ({ w with nextId := w.nextId + 1 }, none)

/-- The spawn loops of `start` (`main.rs` lines 140-170): spawn a worker per
configuration, stopping at the first failure.  On failure the local `Vec` of
already-obtained `Child` handles is dropped, which in Rust neither kills nor
reaps the processes, so `alive` keeps every process spawned so far. -/
def spawn_all (w : World) : List ResolvedConfig → World × Except StartError (List Child)
  | [] => (w, Except.ok [])
  | cfg :: rest =>
    match spawn_worker w cfg with
    | (w1, some ch) =>
      match spawn_all w1 rest with
      | (w2, Except.ok cs) => (w2, Except.ok (ch :: cs))
      | (w2, Except.error e) => (w2, Except.error e)
    | (w1, none) => (w1, Except.error StartError.spawnFailed)

/-- `KeepAliveController::start` (`main.rs` lines 120-174): prune, no-op if
still running, re-normalize the lists, reject an all-empty configuration,
resolve the current executable, spawn one worker per window title and then
one per executable name (each exe worker carrying the full title list), and
commit the children only when every spawn succeeded. -/
def KeepAliveController.start (c : KeepAliveController) (w : World)
    (config : ResolvedConfig) :
    KeepAliveController × World × Except StartError Unit :=
  let c1 := prune_finished c w
  if c1.children.isEmpty then
    let window_titles := normalize_list config.window_titles
    let process_names := normalize_list config.process_names
    if window_titles = [] ∧ process_names = [] then
      (c1, w, Except.error StartError.noTargets)
    else if w.exeOk then
      let cfgs := window_titles.map workerConfigForTitle ++
        process_names.map (workerConfigForExe window_titles)
      match spawn_all w cfgs with
      | (w1, Except.ok cs) => ({ children := cs }, w1, Except.ok ())
      | (w1, Except.error e) => (c1, w1, Except.error e)
    else
      (c1, w, Except.error StartError.currentExeFailed)
  else
    (c1, w, Except.ok ())

/-- The body of `stop` (`main.rs` lines 177-184): kill each drained child in
order; an `InvalidInput` error is tolerated and the child is still waited
on; any other kill error aborts the loop immediately. -/
def stop_children (w : World) : List Child → World × Except StopError Unit
  | [] => (w, Except.ok ())
  | ch :: rest =>
    match w.killRes ch.id with
    | KillOutcome.ok => stop_children { w with alive := w.alive.erase ch.id } rest
    | KillOutcome.errInvalidInput => stop_children w rest
    | KillOutcome.errOther => (w, Except.error StopError.killFailed)

/-- `KeepAliveController::stop` (`main.rs` lines 176-186).  The loop iterates
`self.children.drain(..)`; dropping the `Drain` on the early-return path
removes the remaining elements as well, so the children vector is empty when
`stop` returns on every path, error included. -/
def KeepAliveController.stop (c : KeepAliveController) (w : World) :
    KeepAliveController × World × Except StopError Unit :=
  let res := stop_children w c.children
  ({ children := [] }, res.1, res.2)

/-- Modelled from the spec's words for the Target Normalizer contract
("keep first occurrence, treating two strings as duplicates if equal
case-insensitively; output preserves first-seen order"): keep each entry and
delete its later case-insensitive duplicates. -/
def keepFirsts : List Str → List Str
  | [] => []
  | s :: rest =>
    s :: keepFirsts (rest.filter fun t => !(eq_ignore_ascii_case s t))
termination_by l => l.length
decreasing_by
simp only [List.length_cons]
exact Nat.lt_succ_of_le (List.length_filter_le _ _)

/-- Modelled from the spec's words for the full `normalize` contract: trim
every entry, drop the entries that became empty, then keep first
occurrences under case-insensitive equality. -/
def specNormalize (values : List Str) : List Str :=
  keepFirsts ((values.map trim).filter fun t => !(t.isEmpty))

/-- Executable name used by the concrete test inputs below. -/
def xexe : Str := ['x', '.', 'e', 'x', 'e']

/-- A configuration with one window title, used by concrete test inputs. -/
def wit3cfg : ResolvedConfig := ResolvedConfig.from_lists [['A']] []

/-- A controller that already owns one live worker. -/
def wit3c : KeepAliveController := { children := [{ id := 7, config := wit3cfg }] }

/-- A world in which worker 7 is running, nothing has exited, and every
spawn and kill succeeds. -/
def wit3w : World :=
  { nextId := 8, alive := [7], exeOk := true, spawnOk := fun _ => true,
    killRes := fun _ => KillOutcome.ok, hasExited := fun _ => false }

/-- A world in which the first spawn attempt succeeds and the second fails. -/
def c4w : World :=
  { nextId := 0, alive := [], exeOk := true, spawnOk := fun n => n == 0,
    killRes := fun _ => KillOutcome.ok, hasExited := fun _ => false }

/-- A configuration with two window titles, so `start` makes two spawn
attempts. -/
def c4cfg : ResolvedConfig := ResolvedConfig.from_lists [['A'], ['B']] []

/-- A world in which every spawn attempt succeeds. -/
def c5w : World :=
  { nextId := 0, alive := [], exeOk := true, spawnOk := fun _ => true,
    killRes := fun _ => KillOutcome.ok, hasExited := fun _ => false }

/-- One window title plus one executable name: `start` spawns a title worker
and an exe worker that carries the same title as fallback. -/
def c5cfg : ResolvedConfig := ResolvedConfig.from_lists [['A']] [xexe]

/-- A system where the executable is not running but a window titled `A`
(handle 1) exists, so both workers of `c5cfg` resolve to window 1. -/
def c5sys : SysState :=
  { snapshotOk := true, procs := [],
    windows := [{ hwnd := 1, pid := 42, visible := true, title := ['A'] }] }

/-- A system where process 5 runs the executable `xexe` and owns the
visible titled window 9. -/
def c7sys : SysState :=
  { snapshotOk := true, procs := [{ pid := 5, szExeFile := xexe }],
    windows := [{ hwnd := 9, pid := 5, visible := true, title := ['H', 'i'] }] }

/-- A TargetSpec naming only the executable `xexe`. -/
def c7cfg : ResolvedConfig := ResolvedConfig.from_lists [] [xexe]

/-- A system with no processes and no windows: every lookup misses. -/
def emptySys : SysState := { snapshotOk := true, procs := [], windows := [] }

/-- A three-iteration worker trace whose flag stays set; the last iteration
observes a system where the target cannot be resolved. -/
def c9trace : List (Bool × SysState) :=
  [(true, c7sys), (true, c5sys), (true, emptySys)]

theorem dropWhile_idem (p : Char → Bool) (l : List Char) :
    (l.dropWhile p).dropWhile p = l.dropWhile p := by
  induction l with
  | nil => rfl
  | cons a t ih =>
    by_cases h : p a
    · simpa [List.dropWhile_cons, h] using ih
    · simp [List.dropWhile_cons, h]

theorem dropWhile_shape (p : Char → Bool) (l : List Char) :
    l.dropWhile p = [] ∨
      ∃ a t, l.dropWhile p = a :: t ∧ p a = false := by
  induction l with
  | nil => exact Or.inl rfl
  | cons a t ih =>
    by_cases h : p a
    · simpa [List.dropWhile_cons, h] using ih
    · exact Or.inr ⟨a, t, by simp [List.dropWhile_cons, h], by simpa using h⟩

theorem trim_end_trim_end (s : Str) : trim_end (trim_end s) = trim_end s := by
  simp [trim_end, List.reverse_reverse, dropWhile_idem]

theorem trim_start_trim (s : Str) : trim_start (trim s) = trim s := by
  rcases dropWhile_shape isWhitespaceChar s with h | ⟨a, t, h, ha⟩
  · simp [trim, trim_start, trim_end, h]
  · show trim_start (trim_end (trim_start s)) = trim_end (trim_start s)
    rw [show trim_start s = a :: t from h]
    rw [trim_end, List.reverse_cons, List.dropWhile_append]
    by_cases he : (t.reverse.dropWhile isWhitespaceChar).isEmpty
    · simp only [he, if_pos]
      simp [trim_start, List.dropWhile_cons, ha]
    · simp only [he, if_neg, Bool.false_eq_true, not_false_iff]
      rcases dropWhile_shape isWhitespaceChar t.reverse with h2 | ⟨b, u, h2, hb⟩
      · rw [h2] at he; simp at he
      · rw [h2, List.reverse_append]
        simp [trim_start, List.dropWhile_cons, ha]

theorem trim_end_trim (s : Str) : trim_end (trim s) = trim s :=
  trim_end_trim_end _

theorem trim_trim (s : Str) : trim (trim s) = trim s := by
  show trim_end (trim_start (trim s)) = trim s
  rw [trim_start_trim, trim_end_trim]

theorem normalizeGo_eq_keepFirsts (values : List Str) : ∀ seen : List Str,
    normalizeGo seen values =
      keepFirsts (((values.map trim).filter fun t => !(t.isEmpty)).filter
        fun t => !(seen.contains (lowerKey t))) := by
  induction values with
  | nil => intro seen; simp [normalizeGo, keepFirsts]
  | cons v rest ih =>
    intro seen
    by_cases h0 : trim v = []
    · simp only [normalizeGo, h0, if_pos, List.map_cons, List.filter_cons, h0,
        List.isEmpty_nil, Bool.not_true, Bool.false_eq_true, if_neg, ite_false]
      exact ih seen
    · have hne : (trim v).isEmpty = false := by
        cases hv : trim v with
        | nil => exact absurd hv h0
        | cons a t => rfl
      by_cases h1 : seen.contains (lowerKey (trim v))
      · simp only [normalizeGo, h0, if_neg, h1, if_pos, List.map_cons,
          List.filter_cons, hne, Bool.not_false, if_pos, h1, Bool.not_true,
          Bool.false_eq_true, ite_false, ite_true]
        exact ih seen
      · have h1f : seen.contains (lowerKey (trim v)) = false := by
          simpa using h1
        simp only [normalizeGo, h0, if_neg, h1f, List.map_cons,
          List.filter_cons, hne, Bool.not_false, ite_true, h1f,
          Bool.not_false, Bool.false_eq_true, ite_false]
        rw [keepFirsts]
        congr 1
        rw [ih (lowerKey (trim v) :: seen)]
        congr 1
        simp only [List.filter_filter]
        apply List.filter_congr
        intro u _
        have hc : ((lowerKey (trim v) :: seen).contains (lowerKey u)) =
            ((lowerKey u == lowerKey (trim v)) || seen.contains (lowerKey u)) := by
          simp only [List.contains_cons, beq_eq_decide]
        have hcomm : (lowerKey u == lowerKey (trim v)) =
            (lowerKey (trim v) == lowerKey u) := by
          by_cases he : lowerKey u = lowerKey (trim v)
          · simp [he]
          · have he2 : lowerKey (trim v) ≠ lowerKey u := fun hh => he hh.symm
            simp [he, he2]
        rw [hc, Bool.not_or, eq_ignore_ascii_case, hcomm, Bool.and_assoc]

theorem normalizeGo_mem (values : List Str) : ∀ (seen : List Str) (s : Str),
    s ∈ normalizeGo seen values → (∃ v ∈ values, s = trim v) ∧ s ≠ [] := by
  induction values with
  | nil => intro seen s h; exact absurd h (List.not_mem_nil s)
  | cons v rest ih =>
    intro seen s h
    by_cases h0 : trim v = []
    · simp only [normalizeGo, h0, if_pos] at h
      obtain ⟨⟨u, hu, hs⟩, hne⟩ := ih seen s h
      exact ⟨⟨u, List.mem_cons_of_mem v hu, hs⟩, hne⟩
    · by_cases h1 : seen.contains (lowerKey (trim v))
      · simp only [normalizeGo, h0, if_neg, h1, if_pos, ite_false, ite_true] at h
        obtain ⟨⟨u, hu, hs⟩, hne⟩ := ih seen s h
        exact ⟨⟨u, List.mem_cons_of_mem v hu, hs⟩, hne⟩
      · have h1f : seen.contains (lowerKey (trim v)) = false := by simpa using h1
        simp only [normalizeGo, h0, h1f, Bool.false_eq_true, ite_false] at h
        rcases List.mem_cons.mp h with hs | hs
        · exact ⟨⟨v, List.mem_cons_self v rest, hs⟩, hs ▸ h0⟩
        · obtain ⟨⟨u, hu, hsu⟩, hne⟩ := ih _ s hs
          exact ⟨⟨u, List.mem_cons_of_mem v hu, hsu⟩, hne⟩

theorem normalizeGo_keys (values : List Str) : ∀ seen : List Str,
    (∀ s ∈ normalizeGo seen values, seen.contains (lowerKey s) = false) ∧
      (normalizeGo seen values).Pairwise fun a b => lowerKey a ≠ lowerKey b := by
  induction values with
  | nil =>
    intro seen
    exact ⟨fun s h => absurd h (List.not_mem_nil s), List.Pairwise.nil⟩
  | cons v rest ih =>
    intro seen
    by_cases h0 : trim v = []
    · simpa only [normalizeGo, h0, if_pos] using ih seen
    · by_cases h1 : seen.contains (lowerKey (trim v))
      · simpa only [normalizeGo, h0, h1, ite_false, ite_true] using ih seen
      · have h1f : seen.contains (lowerKey (trim v)) = false := by simpa using h1
        simp only [normalizeGo, h0, h1f, Bool.false_eq_true, ite_false]
        obtain ⟨ihKeys, ihPw⟩ := ih (lowerKey (trim v) :: seen)
        constructor
        · intro s hs
          rcases List.mem_cons.mp hs with hs | hs
          · exact hs ▸ h1f
          · have := ihKeys s hs
            simp only [List.contains_cons, Bool.or_eq_false_iff] at this
            exact this.2
        · refine List.Pairwise.cons ?_ ihPw
          intro b hb
          have := ihKeys b hb
          simp only [List.contains_cons, Bool.or_eq_false_iff, beq_eq_decide] at this
          intro hcontra
          have h2 := this.1
          rw [hcontra] at h2
          simp at h2

theorem normalizeGo_fixed (l : List Str) : ∀ seen : List Str,
    (∀ s ∈ l, trim s = s ∧ s ≠ [] ∧ seen.contains (lowerKey s) = false) →
    l.Pairwise (fun a b => lowerKey a ≠ lowerKey b) →
    normalizeGo seen l = l := by
  induction l with
  | nil => intro seen _ _; rfl
  | cons s l ih =>
    intro seen hall hpw
    obtain ⟨htrim, hne, hseen⟩ := hall s (List.mem_cons_self s l)
    simp only [normalizeGo, htrim, hne, hseen, Bool.false_eq_true, ite_false]
    congr 1
    apply ih
    · intro u hu
      obtain ⟨ht, hn, hc⟩ := hall u (List.mem_cons_of_mem s hu)
      refine ⟨ht, hn, ?_⟩
      have hkey : lowerKey s ≠ lowerKey u := (List.pairwise_cons.mp hpw).1 u hu
      simp only [List.contains_cons, Bool.or_eq_false_iff, beq_eq_decide, hc,
        and_true]
      simpa using fun hh => hkey hh.symm
    · exact (List.pairwise_cons.mp hpw).2

theorem findViaProcessNames_eq_findSome (sys : SysState) (names : List Str) :
    findViaProcessNames sys names =
      names.findSome? fun n => (find_process_id sys n).bind (find_window_by_pid sys) := by
  induction names with
  | nil => rfl
  | cons name rest ih =>
    rw [List.findSome?_cons]
    cases hp : find_process_id sys name with
    | none => simpa [findViaProcessNames, hp] using ih
    | some pid =>
      cases hw : find_window_by_pid sys pid with
      | none => simpa [findViaProcessNames, hp, hw] using ih
      | some hwnd => simp [findViaProcessNames, hp, hw]

theorem findViaTitles_eq_findSome (sys : SysState) (titles : List Str) :
    findViaTitles sys titles = titles.findSome? (find_window_by_title sys) := by
  induction titles with
  | nil => rfl
  | cons title rest ih =>
    rw [List.findSome?_cons]
    cases ht : find_window_by_title sys title with
    | none => simpa [findViaTitles, ht] using ih
    | some hwnd => simp [findViaTitles, ht]

theorem find_window_by_pid_sound (sys : SysState) (pid hwnd : Nat)
    (h : find_window_by_pid sys pid = some hwnd) :
    ∃ wi ∈ sys.windows, wi.hwnd = hwnd ∧ wi.pid = pid ∧ wi.visible = true ∧
      wi.title ≠ [] := by
  rw [find_window_by_pid, Option.map_eq_some'] at h
  obtain ⟨wi, hfind, hh⟩ := h
  have hmem := List.mem_of_find?_eq_some hfind
  have hq := List.find?_some hfind
  rw [windowQualifiesForPid] at hq
  simp only [Bool.and_eq_true, beq_iff_eq, decide_eq_true_eq] at hq
  refine ⟨wi, hmem, hh, hq.1.1, hq.1.2, ?_⟩
  have := hq.2
  intro hnil
  rw [hnil] at this
  simp at this

theorem findViaProcessNames_sound (sys : SysState) (names : List Str) (hwnd : Nat)
    (h : findViaProcessNames sys names = some hwnd) :
    ∃ name ∈ names, ∃ pid, find_process_id sys name = some pid ∧
      find_window_by_pid sys pid = some hwnd := by
  induction names with
  | nil => exact absurd h (by simp [findViaProcessNames])
  | cons name rest ih =>
    cases hp : find_process_id sys name with
    | none =>
      simp only [findViaProcessNames, hp] at h
      obtain ⟨n, hn, pid, h1, h2⟩ := ih h
      exact ⟨n, List.mem_cons_of_mem name hn, pid, h1, h2⟩
    | some pid =>
      cases hw : find_window_by_pid sys pid with
      | none =>
        simp only [findViaProcessNames, hp, hw] at h
        obtain ⟨n, hn, pid2, h1, h2⟩ := ih h
        exact ⟨n, List.mem_cons_of_mem name hn, pid2, h1, h2⟩
      | some hwnd2 =>
        simp only [findViaProcessNames, hp, hw, Option.some.injEq] at h
        exact ⟨name, List.mem_cons_self name rest, pid, hp, h ▸ hw⟩

theorem prune_finished_idem (c : KeepAliveController) (w : World) :
    prune_finished (prune_finished c w) w = prune_finished c w := by
  rw [prune_finished, prune_finished, List.filter_filter]
  congr 1
  apply List.filter_congr
  intro a _
  rw [Bool.and_self]

theorem start_noop_of_running (c : KeepAliveController) (w : World)
    (cfg : ResolvedConfig) (h : (prune_finished c w).children ≠ []) :
    KeepAliveController.start c w cfg = (prune_finished c w, w, Except.ok ()) := by
  have hne : (prune_finished c w).children.isEmpty = false := by
    cases hc : (prune_finished c w).children with
    | nil => exact absurd hc h
    | cons a t => rfl
  unfold KeepAliveController.start
  simp only [hne, Bool.false_eq_true, ite_false]

theorem spawn_all_alive_extend (cfgs : List ResolvedConfig) : ∀ w : World,
    ∃ new, (spawn_all w cfgs).1.alive = w.alive ++ new := by
  induction cfgs with
  | nil => intro w; exact ⟨[], by simp [spawn_all]⟩
  | cons cfg rest ih =>
    intro w
    by_cases hs : w.spawnOk w.nextId
    · obtain ⟨n1, hn1⟩ := ih { w with nextId := w.nextId + 1, alive := w.alive ++ [w.nextId] }
      rcases hrec : spawn_all { w with nextId := w.nextId + 1, alive := w.alive ++ [w.nextId] } rest
        with ⟨w2, r⟩
      rw [hrec] at hn1
      refine ⟨w.nextId :: n1, ?_⟩
      cases r with
      | ok cs =>
        simp only [spawn_all, spawn_worker, hs, ite_true, hrec]
        simpa [List.append_assoc] using hn1
      | error e =>
        simp only [spawn_all, spawn_worker, hs, ite_true, hrec]
        simpa [List.append_assoc] using hn1
    · have hs2 : w.spawnOk w.nextId = false := by simpa using hs
      exact ⟨[], by simp [spawn_all, spawn_worker, hs2]⟩

/-- Claim C1: `find_target_window` tries executable names first, scanning
`process_names` in order and returning the window of the first name that
resolves to a process with a qualifying window; only if that whole scan
fails does it scan `window_titles` in order, returning the first exact-title
match; and it returns `none` rather than failing when neither scan finds a
window. -/
theorem locate_exe_first_title_fallback (sys : SysState) (cfg : ResolvedConfig) :
    find_target_window sys cfg =
      Option.orElse
        (cfg.process_names.findSome? fun n =>
          (find_process_id sys n).bind (find_window_by_pid sys))
        (fun _ => cfg.window_titles.findSome? (find_window_by_title sys)) := by
  rw [find_target_window, findViaProcessNames_eq_findSome, findViaTitles_eq_findSome]
  cases cfg.process_names.findSome? fun n =>
      (find_process_id sys n).bind (find_window_by_pid sys) with
  | none => rfl
  | some hwnd => rfl

/-- Claim C2: `normalize_list` equals the specification normalizer (trim
each entry, drop entries that became empty, keep the first occurrence of
each ASCII case-insensitive equivalence class, preserving first-seen
order); consequently its output has no empty or whitespace-only entries and
no two entries equal ASCII case-insensitively. -/
theorem normalize_trim_dedup_spec (values : List Str) :
    normalize_list values = specNormalize values ∧
    (∀ s ∈ normalize_list values, s ≠ [] ∧ trim s = s) ∧
    (normalize_list values).Pairwise fun a b => eq_ignore_ascii_case a b = false := by
  refine ⟨?_, ?_, ?_⟩
  · have h := normalizeGo_eq_keepFirsts values []
    simpa [specNormalize, normalize_list] using h
  · intro s hs
    obtain ⟨⟨v, _, hv⟩, hne⟩ := normalizeGo_mem values [] s hs
    refine ⟨hne, ?_⟩
    rw [hv, trim_trim]
  · have h := (normalizeGo_keys values []).2
    refine h.imp ?_
    intro a b hab
    simp only [eq_ignore_ascii_case, beq_eq_decide]
    simpa using hab

/-- Claim C3: when the controller still owns at least one live worker after
pruning, `start` is a no-op that succeeds — it returns the pruned
controller, leaves the world untouched (nothing is spawned), and a second
`start` without an intervening `stop` leaves the same number of live
workers as the first. -/
theorem start_idempotent_while_running (c : KeepAliveController) (w : World)
    (cfg : ResolvedConfig) (h : (prune_finished c w).children ≠ []) :
    KeepAliveController.start c w cfg = (prune_finished c w, w, Except.ok ()) ∧
    (KeepAliveController.start (KeepAliveController.start c w cfg).1
        (KeepAliveController.start c w cfg).2.1 cfg).1.children.length =
      (KeepAliveController.start c w cfg).1.children.length := by
  have h1 := start_noop_of_running c w cfg h
  refine ⟨h1, ?_⟩
  rw [h1]
  have h2 : (prune_finished (prune_finished c w) w).children ≠ [] := by
    rw [prune_finished_idem]; exact h
  rw [start_noop_of_running _ w cfg h2, prune_finished_idem]

/-- Witness for claim C3 at a controller owning live worker 7. -/
theorem start_idempotent_while_running_witness :
    (prune_finished wit3c wit3w).children ≠ [] ∧
    (KeepAliveController.start wit3c wit3w wit3cfg =
        (prune_finished wit3c wit3w, wit3w, Except.ok ()) ∧
      (KeepAliveController.start (KeepAliveController.start wit3c wit3w wit3cfg).1
          (KeepAliveController.start wit3c wit3w wit3cfg).2.1 wit3cfg).1.children.length =
        (KeepAliveController.start wit3c wit3w wit3cfg).1.children.length) :=
  ⟨by decide, start_idempotent_while_running wit3c wit3w wit3cfg (by decide)⟩

/-- Counterexample to claim C4 as stated: in `c4w` the first spawn succeeds
(process 0 starts running) and the second fails; `start` returns the spawn
error and owns no children, but the worker spawned in that same call is NOT
torn down — process 0 is still running when `start` returns, because Rust
drops the local `Child` handles without killing or reaping them. -/
theorem start_spawn_failure_leaks_worker :
    c4w.alive = [] ∧
    (KeepAliveController.start { children := [] } c4w c4cfg).2.2 =
      Except.error StartError.spawnFailed ∧
    (KeepAliveController.start { children := [] } c4w c4cfg).1.children = [] ∧
    (KeepAliveController.start { children := [] } c4w c4cfg).2.1.alive = [0] :=
  ⟨rfl, rfl, rfl, rfl⟩

/-- Claim C4 amended: if spawning fails partway through `start`, the error
is returned synchronously and the controller is left Idle (it owns no
children and `is_running` reports false), but the workers already spawned
in that same call are not torn down: no process is killed, so the world's
running set only ever grows during `start`. -/
theorem start_spawn_failure_leaves_idle (c : KeepAliveController) (w : World)
    (cfg : ResolvedConfig)
    (h : (KeepAliveController.start c w cfg).2.2 =
      Except.error StartError.spawnFailed) :
    (KeepAliveController.start c w cfg).1.children = [] ∧
    is_running (KeepAliveController.start c w cfg).1
      (KeepAliveController.start c w cfg).2.1 = false ∧
    ∃ spawned, (KeepAliveController.start c w cfg).2.1.alive = w.alive ++ spawned := by
  have hrun : ∀ (c2 : KeepAliveController) (w2 : World), c2.children = [] →
      is_running c2 w2 = false := by
    intro c2 w2 hc
    rw [is_running, prune_finished, hc]
    rfl
  by_cases h1 : (prune_finished c w).children.isEmpty
  · have h1e : (prune_finished c w).children = [] := by
      cases hc : (prune_finished c w).children with
      | nil => rfl
      | cons a t => rw [hc] at h1; exact absurd h1 (by simp)
    by_cases h2 : normalize_list cfg.window_titles = [] ∧
        normalize_list cfg.process_names = []
    · unfold KeepAliveController.start
      simp only [h1, ite_true, h2, and_self, if_pos]
      exact ⟨h1e, hrun _ _ h1e, [], by simp⟩
    · by_cases h3 : w.exeOk
      · rcases hsp : spawn_all w
            ((normalize_list cfg.window_titles).map workerConfigForTitle ++
              (normalize_list cfg.process_names).map
                (workerConfigForExe (normalize_list cfg.window_titles)))
          with ⟨w1, r⟩
        cases r with
        | ok cs =>
          exfalso
          unfold KeepAliveController.start at h
          simp only [h1, ite_true, h2, ite_false, h3, hsp] at h
          exact Except.noConfusion h
        | error e =>
          unfold KeepAliveController.start
          simp only [h1, ite_true, h2, ite_false, h3, hsp]
          obtain ⟨new, hnew⟩ := spawn_all_alive_extend _ w
          rw [hsp] at hnew
          exact ⟨h1e, hrun _ _ h1e, new, hnew⟩
      · unfold KeepAliveController.start
        simp only [h1, ite_true, h2, ite_false, h3]
        exact ⟨h1e, hrun _ _ h1e, [], by simp⟩
  · exfalso
    unfold KeepAliveController.start at h
    simp only [h1, Bool.false_eq_true, ite_false] at h
    exact Except.noConfusion h

/-- Witness for the amended claim C4 at the concrete failing world `c4w`. -/
theorem start_spawn_failure_leaves_idle_witness :
    (KeepAliveController.start { children := [] } c4w c4cfg).2.2 =
      Except.error StartError.spawnFailed ∧
    ((KeepAliveController.start { children := [] } c4w c4cfg).1.children = [] ∧
      is_running (KeepAliveController.start { children := [] } c4w c4cfg).1
        (KeepAliveController.start { children := [] } c4w c4cfg).2.1 = false ∧
      ∃ spawned, (KeepAliveController.start { children := [] } c4w c4cfg).2.1.alive =
        c4w.alive ++ spawned) :=
  ⟨rfl, start_spawn_failure_leaves_idle { children := [] } c4w c4cfg rfl⟩

/-- Counterexample to claim C5 as stated: with one title and one executable
configured, `start` spawns a title worker and an exe worker whose fallback
list carries the same title; in system `c5sys` (executable not running,
window 1 titled `A`) both workers resolve window 1 in one interval, so
window 1 receives two activation signals, not at most one. -/
theorem duplicate_activation_same_window :
    (KeepAliveController.start { children := [] } c5w c5cfg).2.2 = Except.ok () ∧
    (intervalSignals c5sys
        ((KeepAliveController.start { children := [] } c5w c5cfg).1.children.map
          Child.config)).count 1 = 2 ∧
    ¬((intervalSignals c5sys
        ((KeepAliveController.start { children := [] } c5w c5cfg).1.children.map
          Child.config)).count 1 ≤ 1) :=
  ⟨rfl, rfl, by decide⟩

/-- Claim C5 amended: during one poll interval each worker sends at most one
activation signal — exactly one to the window its own `find_target_window`
resolves — so a window receives one signal per worker that resolves to it,
which can exceed one when several workers resolve to the same window. -/
theorem interval_signal_count_per_worker (sys : SysState)
    (configs : List ResolvedConfig) (hwnd : Nat) :
    (intervalSignals sys configs).count hwnd =
      (configs.filter fun cfg => find_target_window sys cfg == some hwnd).length := by
  induction configs with
  | nil => rfl
  | cons cfg rest ih =>
    cases hc : find_target_window sys cfg with
    | none =>
      simp only [intervalSignals, List.filterMap_cons, hc, List.filter_cons]
      simpa [intervalSignals] using ih
    | some h0 =>
      by_cases he : h0 = hwnd
      · subst he
        simp only [intervalSignals, List.filterMap_cons, hc, List.filter_cons,
          List.count_cons]
        simp [intervalSignals] at ih
        simp [ih]
      · simp only [intervalSignals, List.filterMap_cons, hc, List.filter_cons,
          List.count_cons]
        simp [intervalSignals] at ih
        simp [ih, he]

/-- Claim C6: after `stop` returns — whatever the kill outcomes were — the
controller owns no children, `is_running` reports false (Idle), and `stop`
on an already-Idle controller is a no-op that succeeds and leaves the world
unchanged. -/
theorem stop_clears_children (c : KeepAliveController) (w : World) :
    (KeepAliveController.stop c w).1.children = [] ∧
    is_running (KeepAliveController.stop c w).1
      (KeepAliveController.stop c w).2.1 = false ∧
    KeepAliveController.stop { children := [] } w =
      ({ children := [] }, w, Except.ok ()) :=
  ⟨rfl, rfl, rfl⟩

/-- Claim C7: when the executable-name scan of `find_target_window`
resolves a window, that window is returned by `find_target_window`, and it
is a window record of the system that belongs to the very process id the
matched executable name resolved to, is visible, and has non-empty title
text. -/
theorem locate_by_exe_window_fields (sys : SysState) (cfg : ResolvedConfig)
    (hwnd : Nat) (h : findViaProcessNames sys cfg.process_names = some hwnd) :
    find_target_window sys cfg = some hwnd ∧
    ∃ name ∈ cfg.process_names, ∃ pid, find_process_id sys name = some pid ∧
      ∃ wi ∈ sys.windows, wi.hwnd = hwnd ∧ wi.pid = pid ∧ wi.visible = true ∧
        wi.title ≠ [] := by
  constructor
  · rw [find_target_window, h]
  · obtain ⟨name, hmem, pid, h1, h2⟩ := findViaProcessNames_sound sys _ hwnd h
    obtain ⟨wi, hwi, hh, hp, hv, ht⟩ := find_window_by_pid_sound sys pid hwnd h2
    exact ⟨name, hmem, pid, h1, wi, hwi, hh, hp, hv, ht⟩

/-- Witness for claim C7 on a system where executable `xexe` runs as
process 5 owning visible titled window 9. -/
theorem locate_by_exe_window_fields_witness :
    findViaProcessNames c7sys c7cfg.process_names = some 9 ∧
    (find_target_window c7sys c7cfg = some 9 ∧
      ∃ name ∈ c7cfg.process_names, ∃ pid, find_process_id c7sys name = some pid ∧
        ∃ wi ∈ c7sys.windows, wi.hwnd = 9 ∧ wi.pid = pid ∧ wi.visible = true ∧
          wi.title ≠ []) :=
  ⟨by decide, locate_by_exe_window_fields c7sys c7cfg 9 (by decide)⟩

/-- Claim C8: building a `ResolvedConfig` from a title list that normalizes
to empty yields exactly the singleton default title, an executable list
that normalizes to empty stays empty, and every `ResolvedConfig` built by
`from_lists` has at least one window title. -/
theorem from_lists_default_title (window_titles process_names : List Str)
    (hw : normalize_list window_titles = [])
    (hp : normalize_list process_names = []) :
    (ResolvedConfig.from_lists window_titles process_names).window_titles =
      [DEFAULT_WINDOW_TITLE] ∧
    (ResolvedConfig.from_lists window_titles process_names).process_names = [] ∧
    ∀ wt2 pn2, (ResolvedConfig.from_lists wt2 pn2).window_titles ≠ [] := by
  refine ⟨by simp [ResolvedConfig.from_lists, hw],
    by simp [ResolvedConfig.from_lists, hp], ?_⟩
  intro wt2 pn2
  rw [ResolvedConfig.from_lists]
  by_cases h : normalize_list wt2 = []
  · simp [h]
  · simp [h]

/-- Witness for claim C8 at a whitespace-only title list and an empty-string
executable list, both of which normalize to empty. -/
theorem from_lists_default_title_witness :
    (normalize_list [[' ']] = [] ∧ normalize_list ([[]] : List Str) = []) ∧
    ((ResolvedConfig.from_lists [[' ']] [[]]).window_titles =
        [DEFAULT_WINDOW_TITLE] ∧
      (ResolvedConfig.from_lists [[' ']] [[]]).process_names = [] ∧
      ∀ wt2 pn2, (ResolvedConfig.from_lists wt2 pn2).window_titles ≠ []) :=
  ⟨⟨rfl, rfl⟩, from_lists_default_title [[' ']] [[]] rfl rfl⟩

/-- Claim C9: as long as the stop flag stays set, every iteration of the
worker loop emits exactly one entry whose signal is the freshly computed
`find_target_window` of that iteration's system state (never a handle from
an earlier cycle), sends a signal only when that lookup succeeded, sleeps
the fixed 100 ms interval, and continues even when the lookup found
nothing. -/
theorem worker_loop_polls_every_interval (config : ResolvedConfig)
    (trace : List (Bool × SysState)) (hall : ∀ p ∈ trace, p.1 = true) :
    worker_loop config trace =
      trace.map fun p => (find_target_window p.2 config, REFRESH_INTERVAL_MS) := by
  induction trace with
  | nil => rfl
  | cons p rest ih =>
    obtain ⟨active, sys⟩ := p
    have hact : active = true := hall (active, sys) (List.mem_cons_self _ rest)
    rw [hact]
    simp only [worker_loop, List.map_cons, if_pos]
    exact congrArg _ (ih fun q hq => hall q (List.mem_cons_of_mem _ hq))

/-- Witness for claim C9 on a three-cycle trace whose last cycle resolves
nothing (the loop still emits an entry and sleeps for it). -/
theorem worker_loop_polls_every_interval_witness :
    (∀ p ∈ c9trace, p.1 = true) ∧
    worker_loop c5cfg c9trace =
      c9trace.map fun p => (find_target_window p.2 c5cfg, REFRESH_INTERVAL_MS) :=
  ⟨by decide, worker_loop_polls_every_interval c5cfg c9trace (by decide)⟩

/-- Claim C10: `normalize_list` is idempotent — applying it to its own
output returns that output unchanged, which justifies the re-normalization
`start` performs on an already-normalized `ResolvedConfig`. -/
theorem normalize_idempotent (values : List Str) :
    normalize_list (normalize_list values) = normalize_list values := by
  apply normalizeGo_fixed
  · intro s hs
    obtain ⟨⟨v, _, hv⟩, hne⟩ := normalizeGo_mem values [] s hs
    exact ⟨by rw [hv, trim_trim], hne, rfl⟩
  · exact (normalizeGo_keys values []).2

end KeepActive
